import Mathlib

/-!
Verification of the ghostpipe file-synchronization tool.

The definitions below are a shallow embedding of the reconciliation core in
`src/bin/ghostpipe.js`: the permission router (`fileString`, `hasPermission`),
the local-change and remote-write handlers (`debouncedChange`,
`debouncedWriteFile` bodies and the `WRITES` suppression table), the
`debounceByKey` timer map, the diff-snapshot changed-file computation and
base/head map population of `createDiffSession`, the manager URL aggregation
of `handleFileSharing`/`createSession`, and the `safeWriteFile` /
`setupFileSync` remote-to-disk application path.

Conventions: JavaScript strings are Lean `String`; a JS value that may be
`undefined` is an `Option`; in-memory maps and the filesystem are modelled as
functions to `Option`; a handler that would raise an uncaught exception (which
kills the single-threaded process, discarding all in-memory state) returns
`none`. External collaborators (the minimatch glob library, git queries, the
random connection URLs) are modelled as explicit functions or parameters.
-/

/-- Model of the external `minimatch` glob library used by `hasPermission`:
glob matching where `*` matches any (possibly empty) sequence of characters
(it may consume any suffix of the remaining input) and `?` matches exactly one
character; every other character matches itself. The claims proved below do
not depend on the internals of the matcher, only on it being a pure
predicate. -/
def globMatch : List Char → List Char → Bool
  | [], s => s.isEmpty
  | '*' :: ps, s => s.tails.any fun suffix => globMatch ps suffix
  | '?' :: ps, s =>
    match s with
    | [] => false
    | _ :: cs => globMatch ps cs
  | p :: ps, s =>
    match s with
    | [] => false
    | c :: cs => (p == c) && globMatch ps cs

/-- `minimatch(file, glob)` from the source (argument order as in the JS call). -/
def minimatch (file glob : String) : Bool :=
  globMatch glob.toList file.toList

/-- A parsed interface file declaration, result of `fileString` in
`src/bin/ghostpipe.js`. The JS value `undefined` for a missing token is
modelled as the empty string (both are falsy and make `includes` fail). -/
structure FileDecl where
  glob : String
  map : Option String
  permissions : String
deriving Repr, DecidableEq

/-- JS `String.prototype.split(' ')` on the character level: split at every
single space, keeping empty segments. -/
def splitOnSpaceAux (acc : List Char) : List Char → List String
  | [] => [String.mk acc.reverse]
  | c :: cs =>
    if c = ' ' then String.mk acc.reverse :: splitOnSpaceAux [] cs
    else splitOnSpaceAux (c :: acc) cs

def jsSplitSpace (s : String) : List String :=
  splitOnSpaceAux [] s.data

/-- JS `String.prototype.includes` specialised to a single character, as used
with the permission characters `'r'`/`'w'`. -/
def stringIncludes (s : String) (c : Char) : Bool :=
  s.data.contains c

/-- `fileString` from `src/bin/ghostpipe.js` (line 865): splits a declaration
string `"<glob> [<mapping>] <permissions>"` on single spaces; when the third
token is absent or empty, the second token is the permission set and there is
no mapping. -/
def fileString (s : String) : FileDecl :=
  let parts := jsSplitSpace s
  let glob := parts.getD 0 ""
  let mapTok := parts.getD 1 ""
  let permTok := parts.getD 2 ""
  { glob := glob
  , map := if permTok ≠ "" then some mapTok else none
  , permissions := if permTok ≠ "" then permTok else mapTok }

/-- `hasPermission` from `src/bin/ghostpipe.js` (lines 859-863): true when some
pattern of the interface both contains the required permission character and
glob-matches the file. -/
def hasPermission (permission : Char) (patterns : List String) (file : String) : Bool :=
  patterns.any fun pattern =>
    stringIncludes (fileString pattern).permissions permission
      && minimatch file (fileString pattern).glob

/-- C5: `hasPermission` returns true iff some declaration of the interface has
a glob matching the path and a permission set containing the required
character; declarations combine with OR semantics (any single matching
declaration grants permission). The predicate is a pure Lean function, hence
side-effect free. -/
theorem hasPermission_iff_exists_matching_decl
    (permission : Char) (patterns : List String) (file : String) :
    hasPermission permission patterns file = true ↔
      ∃ pattern ∈ patterns,
        stringIncludes (fileString pattern).permissions permission = true ∧
        minimatch file (fileString pattern).glob = true := by
  unfold hasPermission
  rw [List.any_eq_true]
  constructor
  · rintro ⟨pattern, hmem, hb⟩
    rw [Bool.and_eq_true] at hb
    exact ⟨pattern, hmem, hb.1, hb.2⟩
  · rintro ⟨pattern, hmem, h1, h2⟩
    exact ⟨pattern, hmem, by rw [Bool.and_eq_true]; exact ⟨h1, h2⟩⟩

/-! ## Diff snapshot (`createDiffSession`, lines 395-449) -/

/-- Insertion-order deduplication, modelling `Array.from(new Set([...a, ...b]))`
in `createDiffSession` (lines 397-401): keeps the first occurrence of each
element, in order. -/
def jsSetDedup : List String → List String
  | [] => []
  | x :: xs => x :: jsSetDedup (xs.filter (fun y => y ≠ x))
  termination_by l => l.length
  decreasing_by
    simp only [List.length_cons]
    exact Nat.lt_succ_of_le (List.length_filter_le _ _)

/-- The changed-file set of a diff snapshot (lines 397-402), at the level of
path lists: the outputs of the two `git diff --name-only` queries are the
lists `committed` and `headRef` working-tree list `working` (paths are
newline-free and nonempty, so the `join`/`split` round trip in the source is
the identity on these lists). In working-directory mode the two lists are
unioned through a JS `Set`, which removes duplicates; otherwise the committed
list is used directly. -/
def changedFileSet (isWorkingDirectory : Bool) (committed working : List String) :
    List String :=
  if isWorkingDirectory then jsSetDedup (committed ++ working) else committed

theorem mem_jsSetDedup (p : String) : ∀ l : List String, p ∈ jsSetDedup l ↔ p ∈ l
  | [] => by simp [jsSetDedup]
  | x :: xs => by
    rw [jsSetDedup]
    by_cases hpx : p = x
    · subst hpx; simp
    · simp only [List.mem_cons, hpx, false_or]
      rw [mem_jsSetDedup p (xs.filter (fun y => y ≠ x))]
      simp [List.mem_filter, hpx]
  termination_by l => l.length
  decreasing_by
    simp only [List.length_cons]
    exact Nat.lt_succ_of_le (List.length_filter_le _ _)

theorem nodup_jsSetDedup : ∀ l : List String, (jsSetDedup l).Nodup
  | [] => by simp [jsSetDedup]
  | x :: xs => by
    rw [jsSetDedup]
    refine List.nodup_cons.2 ⟨?_, nodup_jsSetDedup (xs.filter (fun y => y ≠ x))⟩
    rw [mem_jsSetDedup]
    simp
  termination_by l => l.length
  decreasing_by
    simp only [List.length_cons]
    exact Nat.lt_succ_of_le (List.length_filter_le _ _)

/-- C6: any path in the committed difference between base and head refs, and,
in working-directory mode, any path in the uncommitted difference, appears in
the snapshot's changed-file set exactly once. In working-directory mode the
JS `Set` union removes duplicates; in the plain two-ref mode the committed
list is the direct output of a single `git diff --name-only`, which lists
each path once (hypothesis `hnd`). -/
theorem changed_file_appears_exactly_once
    (isWorkingDirectory : Bool) (committed working : List String) (p : String)
    (hnd : isWorkingDirectory = false → committed.Nodup)
    (hp : p ∈ committed ∨ (isWorkingDirectory = true ∧ p ∈ working)) :
    (changedFileSet isWorkingDirectory committed working).count p = 1 := by
  unfold changedFileSet
  cases isWorkingDirectory with
  | true =>
    simp only [if_pos rfl]
    have hmem : p ∈ committed ++ working := by
      rcases hp with h | ⟨_, h⟩
      · exact List.mem_append_left _ h
      · exact List.mem_append_right _ h
    exact List.count_eq_one_of_mem (nodup_jsSetDedup _) ((mem_jsSetDedup p _).2 hmem)
  | false =>
    rw [if_neg Bool.false_ne_true]
    rcases hp with h | ⟨hc, _⟩
    · exact List.count_eq_one_of_mem (hnd rfl) h
    · exact absurd hc (by simp)

/-- Witness for C6 at a concrete input: working-directory mode, `b.txt`
changed both in a commit and in the working tree appears once. -/
theorem changed_file_appears_exactly_once_witness :
    (changedFileSet true ["a.txt", "b.txt"] ["b.txt", "c.txt"]).count "b.txt" = 1 :=
  changed_file_appears_exactly_once true ["a.txt", "b.txt"] ["b.txt", "c.txt"] "b.txt"
    (by intro h; cases h) (Or.inl (by simp))

/-- Pointwise update of a string-keyed map, modelling a `Map.set` /
object-property assignment. -/
def setFun (f : String → Option String) (k : String) (v : Option String) :
    String → Option String :=
  fun x => if x = k then v else f x

/-- Base-side content resolution of `createDiffSession` (lines 420-429): the
historical-content query `git show baseRef:file` is modelled by the external
function `gitShow`; a failing query (file absent at that revision) is caught
and mapped to the empty string. -/
def baseEntryContent (gitShow : String → String → Option String)
    (baseRef file : String) : String :=
  (gitShow baseRef file).getD ""

/-- Head-side content resolution of `createDiffSession` (lines 431-448): in
working-directory mode the content is read live from disk (absence maps to the
empty string); otherwise it is the historical content at `headRef` (absence,
i.e. deletion between revisions, maps to the empty string). -/
def headEntryContent (gitShow : String → String → Option String)
    (disk : String → Option String) (isWorkingDirectory : Bool)
    (headRef file : String) : String :=
  if isWorkingDirectory then (disk file).getD ""
  else (gitShow headRef file).getD ""

/-- Population of the `base-files` and `head-files` maps of a diff session
(the `changedFiles.forEach` loop at lines 420-449). -/
def loadDiffMaps (gitShow : String → String → Option String)
    (disk : String → Option String) (isWorkingDirectory : Bool)
    (baseRef headRef : String) (changedFiles : List String) :
    (String → Option String) × (String → Option String) :=
  changedFiles.foldl
    (fun maps file =>
      (setFun maps.1 file (some (baseEntryContent gitShow baseRef file)),
       setFun maps.2 file (some (headEntryContent gitShow disk isWorkingDirectory headRef file))))
    (fun _ => none, fun _ => none)

theorem loadDiffMaps_fold (gitShow : String → String → Option String)
    (disk : String → Option String) (isWD : Bool) (baseRef headRef f : String) :
    ∀ (l : List String) (init : (String → Option String) × (String → Option String)),
      (l.foldl
        (fun maps file =>
          (setFun maps.1 file (some (baseEntryContent gitShow baseRef file)),
           setFun maps.2 file (some (headEntryContent gitShow disk isWD headRef file))))
        init).1 f =
        (if f ∈ l then some (baseEntryContent gitShow baseRef f) else init.1 f) ∧
      (l.foldl
        (fun maps file =>
          (setFun maps.1 file (some (baseEntryContent gitShow baseRef file)),
           setFun maps.2 file (some (headEntryContent gitShow disk isWD headRef file))))
        init).2 f =
        (if f ∈ l then some (headEntryContent gitShow disk isWD headRef f) else init.2 f)
  | [], init => by simp
  | x :: xs, init => by
    rw [List.foldl_cons]
    rcases loadDiffMaps_fold gitShow disk isWD baseRef headRef f xs
      ((setFun init.1 x (some (baseEntryContent gitShow baseRef x)),
        setFun init.2 x (some (headEntryContent gitShow disk isWD headRef x)))) with ⟨h1, h2⟩
    rw [h1, h2]
    by_cases hfx : f = x
    · subst hfx
      by_cases hfl : f ∈ xs <;> simp [hfl, setFun]
    · by_cases hfl : f ∈ xs <;> simp [hfl, hfx, setFun]

/-- C7: for a changed path whose historical-content query at `baseRef` reports
the file absent, the base map entry is set to the empty string (for either
value of working-directory mode) rather than the load failing; in particular,
for a file existing only at `headRef` (two-ref mode), the base entry is `""`
while the head entry is the file's content at `headRef`. -/
theorem absent_base_file_maps_to_empty
    (gitShow : String → String → Option String) (disk : String → Option String)
    (baseRef headRef f c : String) (changedFiles : List String)
    (hmem : f ∈ changedFiles)
    (hbase : gitShow baseRef f = none)
    (hhead : gitShow headRef f = some c) :
    (∀ isWD : Bool,
      (loadDiffMaps gitShow disk isWD baseRef headRef changedFiles).1 f = some "") ∧
    (loadDiffMaps gitShow disk false baseRef headRef changedFiles).2 f = some c := by
  constructor
  · intro isWD
    rw [loadDiffMaps,
      (loadDiffMaps_fold gitShow disk isWD baseRef headRef f changedFiles _).1,
      if_pos hmem, baseEntryContent, hbase]
    rfl
  · rw [loadDiffMaps,
      (loadDiffMaps_fold gitShow disk false baseRef headRef f changedFiles _).2,
      if_pos hmem, headEntryContent, hhead]
    rfl

/-- Witness for C7: a file `f.txt` present only at the head revision gets base
entry `""` and head entry its content. -/
theorem absent_base_file_maps_to_empty_witness :
    (loadDiffMaps
      (fun r f => if r = "head" && f = "f.txt" then some "hello" else none)
      (fun _ => none) false "main" "head" ["f.txt"]).1 "f.txt" = some "" ∧
    (loadDiffMaps
      (fun r f => if r = "head" && f = "f.txt" then some "hello" else none)
      (fun _ => none) false "main" "head" ["f.txt"]).2 "f.txt" = some "hello" := by
  have h := absent_base_file_maps_to_empty
    (fun r f => if r = "head" && f = "f.txt" then some "hello" else none)
    (fun _ => none) "main" "head" "f.txt" "hello" ["f.txt"]
    (by simp) (by simp) (by simp)
  exact ⟨h.1 false, h.2⟩

/-! ## Manager URL aggregation (`handleFileSharing` lines 672-689,
`createSession` lines 329-332) -/

/-- An interface declaration as consumed by `handleFileSharing` (name, host,
manager flag; the file declarations are irrelevant to URL aggregation). -/
structure IfaceCfg where
  name : String
  host : String
  manager : Bool
deriving Repr, DecidableEq

/-- `config.interfaces.some(iface => iface.manager === true)` (line 670). -/
def hasManager (cfgs : List IfaceCfg) : Bool :=
  cfgs.any (fun c => c.manager)

/-- The `interfaceUrls` object accumulated during session creation: every
session executes `interfaceUrls[name] = url` (lines 330-331), the manager
sessions included — there is no manager exclusion in `createSession`. A
session is a pair of its interface declaration and its (randomly generated)
connection URL. Later assignments to the same name overwrite earlier ones,
as for a JS object. -/
def interfaceUrlsMap (sessions : List (IfaceCfg × String)) : String → Option String :=
  sessions.foldl (fun m s => setFun m s.1.name (some s.2)) (fun _ => none)

/-- The `interfaceUrls` metadata entry a given session ends up with after
`handleFileSharing` (lines 681-687): set to the accumulated URL map exactly on
manager sessions when some configured interface is a manager, absent
otherwise. -/
def managerMetadataEntry (sessions : List (IfaceCfg × String)) (cfg : IfaceCfg) :
    Option (String → Option String) :=
  if hasManager (sessions.map Prod.fst) && cfg.manager then
    some (interfaceUrlsMap sessions)
  else none

/-- Modelled from the spec: the map containing exactly the non-manager
sessions, which is what the claim says the manager metadata entry is set to.
Used only to compare the code's behaviour against the claim. -/
def specNonManagerUrlsMap (sessions : List (IfaceCfg × String)) : String → Option String :=
  interfaceUrlsMap (sessions.filter (fun s => !s.1.manager))

theorem urlsFold_not_mem (n : String) :
    ∀ (l : List (IfaceCfg × String)) (init : String → Option String),
      (∀ s ∈ l, s.1.name ≠ n) →
      (l.foldl (fun m s => setFun m s.1.name (some s.2)) init) n = init n
  | [], init, _ => rfl
  | x :: xs, init, h => by
    rw [List.foldl_cons, urlsFold_not_mem n xs _ (fun s hs => h s (List.mem_cons_of_mem _ hs))]
    simp [setFun, Ne.symm (h x (List.mem_cons_self _ _))]

theorem urlsFold_mem (c : IfaceCfg) (u : String) :
    ∀ (l : List (IfaceCfg × String)) (init : String → Option String),
      (l.map (fun s => s.1.name)).Nodup → (c, u) ∈ l →
      (l.foldl (fun m s => setFun m s.1.name (some s.2)) init) c.name = some u
  | [], _, _, hm => absurd hm (List.not_mem_nil _)
  | x :: xs, init, hnd, hm => by
    rw [List.map_cons, List.nodup_cons] at hnd
    rw [List.foldl_cons]
    rcases List.mem_cons.1 hm with hx | hxs
    · subst hx
      rw [urlsFold_not_mem _ xs _ ?hne]
      · simp [setFun]
      · intro s hs he
        exact hnd.1 (he ▸ List.mem_map_of_mem (fun s => s.1.name) hs)
    · exact urlsFold_mem c u xs _ hnd.2 hxs

/-- C8 counterexample: with a manager interface `mgr` and a non-manager
interface `a`, the URL map written into the manager's metadata contains the
manager session itself (`mgr ↦ u1`), whereas the claimed map of exactly the
non-manager sessions has no entry for `mgr`. -/
theorem manager_metadata_includes_manager_counterexample :
    (managerMetadataEntry
        [(⟨"mgr", "h1", true⟩, "u1"), (⟨"a", "h2", false⟩, "u2")]
        ⟨"mgr", "h1", true⟩).map (fun m => m "mgr") = some (some "u1") ∧
    specNonManagerUrlsMap
        [(⟨"mgr", "h1", true⟩, "u1"), (⟨"a", "h2", false⟩, "u2")] "mgr" = none ∧
    (⟨"mgr", "h1", true⟩ : IfaceCfg).manager = true := by
  refine ⟨?_, ?_, rfl⟩ <;> rfl

/-- C8 amended: if any declaration has `manager=true`, then after all sessions
are created the manager session's metadata entry is set to the map
{name → url} of all sessions — non-manager and manager sessions alike (the
interface names being distinct, every session contributes its own entry). -/
theorem manager_metadata_lists_all_sessions
    (sessions : List (IfaceCfg × String)) (cfg : IfaceCfg) (url : String)
    (hmgr : cfg.manager = true) (hmem : (cfg, url) ∈ sessions)
    (hnd : (sessions.map (fun s => s.1.name)).Nodup)
    (c : IfaceCfg) (u : String) (hcu : (c, u) ∈ sessions) :
    managerMetadataEntry sessions cfg = some (interfaceUrlsMap sessions) ∧
    interfaceUrlsMap sessions c.name = some u := by
  constructor
  · rw [managerMetadataEntry, if_pos]
    rw [Bool.and_eq_true]
    refine ⟨?_, hmgr⟩
    rw [hasManager, List.any_eq_true]
    exact ⟨cfg, List.mem_map_of_mem Prod.fst hmem, hmgr⟩
  · exact urlsFold_mem c u sessions _ hnd hcu

/-- Witness for the amended C8 at the counterexample configuration: the
manager's metadata map lists the non-manager session `a` (and, per the
counterexample above, also the manager itself). -/
theorem manager_metadata_lists_all_sessions_witness :
    managerMetadataEntry
        [(⟨"mgr", "h1", true⟩, "u1"), (⟨"a", "h2", false⟩, "u2")]
        ⟨"mgr", "h1", true⟩ =
      some (interfaceUrlsMap [(⟨"mgr", "h1", true⟩, "u1"), (⟨"a", "h2", false⟩, "u2")]) ∧
    interfaceUrlsMap [(⟨"mgr", "h1", true⟩, "u1"), (⟨"a", "h2", false⟩, "u2")] "a" =
      some "u2" :=
  manager_metadata_lists_all_sessions
    [(⟨"mgr", "h1", true⟩, "u1"), (⟨"a", "h2", false⟩, "u2")]
    ⟨"mgr", "h1", true⟩ "u1" rfl (by simp) (by simp)
    ⟨"a", "h2", false⟩ "u2" (by simp)

/-! ## Remote-to-disk application (`safeWriteFile` lines 30-39,
`setupFileSync` lines 170-208) -/

/-- A filesystem: the set of existing directories and the regular files with
their contents. Paths are lists of segments (the `path.join` of the source
resolves keys to such paths); the root `[]` is a directory in every state the
process runs in. -/
structure FSState where
  dirs : List (List String)
  files : List (List String × String)
deriving Repr, DecidableEq

def isFile (fs : FSState) (p : List String) : Bool :=
  fs.files.any (fun f => f.1 = p)

def fileLookup (fs : FSState) (p : List String) : Option String :=
  (fs.files.find? (fun f => f.1 = p)).map Prod.snd

/-- `fs.mkdirSync(path.dirname(filePath), { recursive: true })` (line 32):
creates the directory and every missing ancestor; throws (`none`) if some
prefix of the directory path is an existing regular file. -/
def mkdirRecursive (fs : FSState) (dir : List String) : Option FSState :=
  if dir.inits.any (fun d => isFile fs d) then none
  else some { fs with dirs := fs.dirs ++ dir.inits.filter (fun d => d ∉ fs.dirs) }

/-- `fs.writeFileSync(filePath, content, 'utf8')` (line 33): succeeds when the
parent directory exists and the target is not itself a directory; replaces any
previous content of the file. -/
def writeFileSyncModel (fs : FSState) (p : List String) (c : String) : Option FSState :=
  if p.dropLast ∈ fs.dirs ∧ p ∉ fs.dirs then
    some { fs with files := (p, c) :: fs.files.filter (fun f => f.1 ≠ p) }
  else none

/-- `safeWriteFile` (lines 30-39): create missing parent directories, then
write; any thrown error is caught and reported as a `false` return value with
the session left running. The content is an `Option` because `files.get(key)`
in the caller can be `undefined`, on which `writeFileSync` throws (caught). -/
def safeWriteFile (fs : FSState) (filePath : List String) (content : Option String) :
    FSState × Bool :=
  match mkdirRecursive fs filePath.dropLast with
  | none => (fs, false)
  | some fs1 =>
    match content with
    | none => (fs1, false)
    | some c =>
      match writeFileSyncModel fs1 filePath c with
      | none => (fs1, false)
      | some fs2 => (fs2, true)

/-- A per-key change action delivered by the document observer. -/
inductive DocAction where
  | add | update | delete
deriving Repr, DecidableEq

def removeFile (fs : FSState) (p : List String) : FSState :=
  { fs with files := fs.files.filter (fun f => f.1 ≠ p) }

/-- One key of `handleGUIChanges` in `setupFileSync` (lines 176-197): drop keys
outside the allowed-files list; apply `add`/`update` through `safeWriteFile`
with the document's current value; `delete` unlinks the file when it exists. -/
def handleGUIChange (allowedFiles : Option (List (List String)))
    (docGet : List String → Option String) (fs : FSState)
    (key : List String) (action : DocAction) : FSState :=
  if (match allowedFiles with
      | some allowed => decide (key ∉ allowed)
      | none => false) = true then fs
  else
    match action with
    | .add | .update => (safeWriteFile fs key (docGet key)).1
    | .delete => if isFile fs key then removeFile fs key else fs

theorem mkdirRecursive_success (fs : FSState) (dir : List String)
    (h : ∀ d ∈ dir.inits, isFile fs d = false) :
    mkdirRecursive fs dir =
      some { fs with dirs := fs.dirs ++ dir.inits.filter (fun d => d ∉ fs.dirs) } := by
  rw [mkdirRecursive, if_neg]
  rw [List.any_eq_true]
  rintro ⟨d, hd, hfd⟩
  rw [h d hd] at hfd
  cases hfd

theorem mem_dirs_mkdirRecursive (fs fs1 : FSState) (dir : List String)
    (hmk : mkdirRecursive fs dir = some fs1) :
    (∀ d ∈ dir.inits, d ∈ fs1.dirs) ∧ (∀ d ∈ fs.dirs, d ∈ fs1.dirs) ∧
    fs1.files = fs.files := by
  rw [mkdirRecursive] at hmk
  split at hmk
  · cases hmk
  · cases hmk
    refine ⟨?_, ?_, rfl⟩
    · intro d hd
      by_cases hdin : d ∈ fs.dirs
      · exact List.mem_append_left _ hdin
      · refine List.mem_append_right _ ?_
        rw [List.mem_filter]
        exact ⟨hd, by simpa using hdin⟩
    · intro d hd
      exact List.mem_append_left _ hd

/-- C10: a remote document add or update for key `k` creates any missing
parent directories of the target path recursively before the file is written
(first conjunct: in a filesystem where none of the parent prefixes conflicts
with an existing file and the target is not a directory, the nested write goes
through `handleGUIChange`, succeeds, and afterwards the file holds the
document content and every parent directory exists); and a write failure makes
`safeWriteFile` return `false` with no file modified, rather than aborting
(second conjunct, shown for the representative failure of the target path
being an existing directory). -/
theorem remote_add_creates_parents_and_reports_failure
    (fs : FSState) (key : List String) (c : String)
    (docGet : List String → Option String)
    (hne : key ≠ [])
    (hdoc : docGet key = some c)
    (hnf : ∀ d ∈ key.dropLast.inits, isFile fs d = false)
    (hnd : key ∉ fs.dirs) :
    ((safeWriteFile fs key (some c)).2 = true ∧
     fileLookup (handleGUIChange none docGet fs key .add) key = some c ∧
     (∀ d ∈ key.dropLast.inits, d ∈ (handleGUIChange none docGet fs key .add).dirs)) ∧
    (∀ (fs2 : FSState) (k2 : List String) (copt : Option String),
      k2 ∈ fs2.dirs →
      (safeWriteFile fs2 k2 copt).2 = false ∧
      (safeWriteFile fs2 k2 copt).1.files = fs2.files) := by
  constructor
  · have hmk := mkdirRecursive_success fs key.dropLast hnf
    set fs1 : FSState :=
      { fs with dirs := fs.dirs ++ key.dropLast.inits.filter (fun d => d ∉ fs.dirs) }
      with hfs1
    have hdirsub := mem_dirs_mkdirRecursive fs fs1 key.dropLast hmk
    have hparent : key.dropLast ∈ fs1.dirs := by
      refine hdirsub.1 _ ?_
      rw [List.mem_inits]
    have hkeynot : key ∉ fs1.dirs := by
      rw [hfs1]
      intro hmem
      rcases List.mem_append.1 hmem with h | h
      · exact hnd h
      · rw [List.mem_filter, List.mem_inits] at h
        have hlen := h.1.length_le
        have : key.dropLast.length < key.length := by
          rw [List.length_dropLast]
          exact Nat.sub_lt (List.length_pos.2 hne) Nat.one_pos
        omega
    have hwrite : writeFileSyncModel fs1 key c =
        some { fs1 with files := (key, c) :: fs1.files.filter (fun f => f.1 ≠ key) } := by
      rw [writeFileSyncModel, if_pos ⟨hparent, hkeynot⟩]
    have hsafe : safeWriteFile fs key (some c) =
        ({ fs1 with files := (key, c) :: fs1.files.filter (fun f => f.1 ≠ key) }, true) := by
      simp only [safeWriteFile, hmk, hwrite]
    have hgui : handleGUIChange none docGet fs key .add =
        { fs1 with files := (key, c) :: fs1.files.filter (fun f => f.1 ≠ key) } := by
      simp only [handleGUIChange, Bool.false_eq_true, if_false, hdoc, hsafe]
    refine ⟨by rw [hsafe], ?_, ?_⟩
    · rw [hgui, fileLookup]
      simp [List.find?]
    · intro d hd
      rw [hgui]
      exact hdirsub.1 d hd
  · intro fs2 k2 copt hk2
    rw [safeWriteFile]
    cases hmk : mkdirRecursive fs2 k2.dropLast with
    | none => exact ⟨rfl, rfl⟩
    | some fs1 =>
      have hfacts := mem_dirs_mkdirRecursive fs2 fs1 k2.dropLast hmk
      cases copt with
      | none => exact ⟨rfl, hfacts.2.2⟩
      | some c2 =>
        have hwf : writeFileSyncModel fs1 k2 c2 = none := by
          rw [writeFileSyncModel, if_neg]
          rintro ⟨-, hnotdir⟩
          exact hnotdir (hfacts.2.1 k2 hk2)
        simp only [hwf]
        exact ⟨trivial, hfacts.2.2⟩

/-- Witness for C10: writing `a/b/f.txt` into a filesystem containing only the
root directory succeeds, creating `a` and `a/b`; and a write targeting the
root directory itself reports `false` without touching any file. -/
theorem remote_add_creates_parents_and_reports_failure_witness :
    ((safeWriteFile ⟨[[]], []⟩ ["a", "b", "f.txt"] (some "hi")).2 = true ∧
     fileLookup
       (handleGUIChange none (fun k => if k = ["a", "b", "f.txt"] then some "hi" else none)
         ⟨[[]], []⟩ ["a", "b", "f.txt"] .add) ["a", "b", "f.txt"] = some "hi" ∧
     (∀ d ∈ (["a", "b", "f.txt"] : List String).dropLast.inits,
       d ∈ (handleGUIChange none (fun k => if k = ["a", "b", "f.txt"] then some "hi" else none)
         ⟨[[]], []⟩ ["a", "b", "f.txt"] .add).dirs)) ∧
    (∀ (fs2 : FSState) (k2 : List String) (copt : Option String),
      k2 ∈ fs2.dirs →
      (safeWriteFile fs2 k2 copt).2 = false ∧
      (safeWriteFile fs2 k2 copt).1.files = fs2.files) :=
  remote_add_creates_parents_and_reports_failure
    ⟨[[]], []⟩ ["a", "b", "f.txt"] "hi"
    (fun k => if k = ["a", "b", "f.txt"] then some "hi" else none)
    (by simp) (by simp) (by decide) (by decide)

/-! ## Debounce timers (`debounceByKey`, lines 870-880) -/

/-- State of one `debounceByKey` instance: the `timers` map from key to the id
of the timer stored for that key, the set of live (scheduled, not yet fired or
cancelled) timers as (id, key) pairs, and a counter supplying fresh timer ids.
Keys are `args[0]` of the debounced call, a path string. -/
structure DebState where
  timers : String → Option Nat
  pending : List (Nat × String)
  nextId : Nat

/-- The two events that mutate a `debounceByKey` instance: a new debounced
call for a key (lines 873-878), and the firing of a live timer (lines
875-877). -/
inductive DebEvent where
  | schedule : String → DebEvent
  | fire : Nat → String → DebEvent

/-- `clearTimeout(timers.get(key))` (line 874): cancelling `undefined` is a
no-op; cancelling an id removes that timer from the live set. -/
def clearTimeoutModel (pending : List (Nat × String)) : Option Nat → List (Nat × String)
  | none => pending
  | some id => pending.filter (fun t => t.1 ≠ id)

/-- One step of `debounceByKey`. A `schedule k` cancels the timer recorded for
`k`, creates a fresh timer and stores its id under `k` (lines 874-878). A
`fire id k` only has an effect if that timer is still live; the timer callback
first deletes `k` from the map (line 876) and leaves the live set without the
fired timer. -/
def debStep (s : DebState) : DebEvent → DebState
  | .schedule k =>
    { timers := fun k2 => if k2 = k then some s.nextId else s.timers k2
    , pending := clearTimeoutModel s.pending (s.timers k) ++ [(s.nextId, k)]
    , nextId := s.nextId + 1 }
  | .fire id k =>
    if (id, k) ∈ s.pending then
      { timers := fun k2 => if k2 = k then none else s.timers k2
      , pending := s.pending.filter (fun t => t ≠ (id, k))
      , nextId := s.nextId }
    else s

/-- The state of a fresh `debounceByKey` instance: `const timers = new Map()`. -/
def debInit : DebState :=
  { timers := fun _ => none, pending := [], nextId := 0 }

def debRun : DebState → List DebEvent → DebState
  | s, [] => s
  | s, e :: es => debRun (debStep s e) es

/-- The debounce invariant: live timers have pairwise distinct ids and
pairwise distinct keys (at most one live timer per key), the `timers` map
holds exactly the live timer of each key, and all live ids are below the
fresh-id counter. -/
def DebInv (s : DebState) : Prop :=
  (s.pending.map Prod.fst).Nodup ∧
  (s.pending.map Prod.snd).Nodup ∧
  (∀ id k, (id, k) ∈ s.pending ↔ s.timers k = some id) ∧
  (∀ id k, (id, k) ∈ s.pending → id < s.nextId)

theorem debInv_init : DebInv debInit := by
  refine ⟨List.nodup_nil, List.nodup_nil, ?_, ?_⟩ <;> intro id k <;> simp [debInit]

theorem debInv_step (s : DebState) (e : DebEvent) (h : DebInv s) :
    DebInv (debStep s e) := by
  obtain ⟨hfst, hsnd, hmem, hlt⟩ := h
  cases e with
  | schedule k =>
    have hinj : ∀ a ∈ s.pending, ∀ b ∈ s.pending, a.1 = b.1 → a = b :=
      fun a ha b hb hab => List.inj_on_of_nodup_map hfst ha hb hab
    -- the surviving part of the live set, in both cases of `timers k`
    have hP0 : ∀ id2 k2, ((id2, k2) ∈ clearTimeoutModel s.pending (s.timers k) ↔
        ((id2, k2) ∈ s.pending ∧ k2 ≠ k)) := by
      intro id2 k2
      cases htk : s.timers k with
      | none =>
        simp only [clearTimeoutModel]
        constructor
        · intro hin
          refine ⟨hin, ?_⟩
          intro hk2
          rw [hk2, hmem id2 k, htk] at hin
          cases hin
        · exact fun hp => hp.1
      | some oldId =>
        simp only [clearTimeoutModel, List.mem_filter, decide_eq_true_eq]
        constructor
        · rintro ⟨hin, hne⟩
          refine ⟨hin, ?_⟩
          intro hk2
          rw [hk2, hmem id2 k, htk, Option.some.injEq] at hin
          exact hne hin.symm
        · rintro ⟨hin, hne⟩
          refine ⟨hin, ?_⟩
          intro hid
          subst hid
          have hold : (id2, k) ∈ s.pending := (hmem id2 k).2 htk
          have heq := hinj _ hin _ hold rfl
          rw [Prod.mk.injEq] at heq
          exact hne heq.2
    have hP0sub : List.Sublist (clearTimeoutModel s.pending (s.timers k)) s.pending := by
      cases s.timers k with
      | none => exact List.Sublist.refl _
      | some oldId => exact List.filter_sublist _
    constructor
    · -- distinct ids
      rw [debStep]
      dsimp only
      rw [List.map_append, List.nodup_append]
      refine ⟨(hP0sub.map Prod.fst).nodup hfst, List.nodup_singleton _, ?_⟩
      intro a ha hb
      simp only [List.map_cons, List.map_nil, List.mem_singleton] at hb
      subst hb
      rw [List.mem_map] at ha
      obtain ⟨⟨id2, k2⟩, hin, heq⟩ := ha
      cases heq
      have hin2 := ((hP0 _ _).1 hin).1
      exact Nat.lt_irrefl _ (hlt _ _ hin2)
    constructor
    · -- distinct keys
      rw [debStep]
      dsimp only
      rw [List.map_append, List.nodup_append]
      refine ⟨(hP0sub.map Prod.snd).nodup hsnd, List.nodup_singleton _, ?_⟩
      intro a ha hb
      simp only [List.map_cons, List.map_nil, List.mem_singleton] at hb
      subst hb
      rw [List.mem_map] at ha
      obtain ⟨⟨id2, k2⟩, hin, heq⟩ := ha
      cases heq
      exact ((hP0 _ _).1 hin).2 rfl
    constructor
    · -- map agrees with live set
      intro id2 k2
      rw [debStep]
      dsimp only
      rw [List.mem_append, List.mem_singleton, Prod.mk.injEq, hP0 id2 k2]
      by_cases hk2 : k2 = k
      · rw [if_pos hk2, Option.some.injEq]
        constructor
        · rintro (⟨-, hne⟩ | ⟨h1, -⟩)
          · exact absurd hk2 hne
          · exact h1.symm
        · intro hid
          exact Or.inr ⟨hid.symm, hk2⟩
      · rw [if_neg hk2, ← hmem id2 k2]
        constructor
        · rintro (⟨h1, -⟩ | ⟨-, hkk⟩)
          · exact h1
          · exact absurd hkk hk2
        · exact fun h1 => Or.inl ⟨h1, hk2⟩
    · -- freshness
      intro id2 k2
      rw [debStep]
      dsimp only
      rw [List.mem_append, List.mem_singleton, Prod.mk.injEq]
      rintro (hin | ⟨hid, -⟩)
      · exact Nat.lt_succ_of_lt (hlt _ _ ((hP0 _ _).1 hin).1)
      · subst hid
        exact Nat.lt_succ_self _
  | fire id k =>
    rw [debStep]
    by_cases hin : (id, k) ∈ s.pending
    · rw [if_pos hin]
      have hP : ∀ id2 k2, ((id2, k2) ∈ s.pending.filter (fun t => t ≠ (id, k)) ↔
          ((id2, k2) ∈ s.pending ∧ (id2, k2) ≠ (id, k))) := by
        intro id2 k2
        rw [List.mem_filter, decide_eq_true_eq]
      have hsub : List.Sublist (s.pending.filter (fun t => t ≠ (id, k))) s.pending :=
        List.filter_sublist _
      refine ⟨(hsub.map Prod.fst).nodup hfst, (hsub.map Prod.snd).nodup hsnd, ?_, ?_⟩
      · intro id2 k2
        dsimp only
        rw [hP id2 k2]
        by_cases hk2 : k2 = k
        · rw [if_pos hk2]
          constructor
          · rintro ⟨h1, hne⟩
            rw [hk2, hmem id2 k] at h1
            rw [hmem id k] at hin
            rw [hin, Option.some.injEq] at h1
            subst h1
            rw [hk2] at hne
            exact absurd rfl hne
          · intro h1
            cases h1
        · rw [if_neg hk2, ← hmem id2 k2]
          constructor
          · exact fun h1 => h1.1
          · intro h1
            refine ⟨h1, ?_⟩
            intro heq
            rw [Prod.mk.injEq] at heq
            exact hk2 heq.2
      · intro id2 k2 h1
        exact hlt _ _ ((hP _ _).1 h1).1
    · rw [if_neg hin]
      exact ⟨hfst, hsnd, hmem, hlt⟩

theorem debInv_run : ∀ (events : List DebEvent) (s : DebState), DebInv s →
    DebInv (debRun s events)
  | [], _, h => h
  | e :: es, s, h => debInv_run es (debStep s e) (debInv_step s e h)

/-- C9: in every state reachable by any sequence of debounced calls and timer
firings, there is at most one pending debounce timer per key (the keys of the
live-timer set are pairwise distinct), and the timer map records exactly the
live timer of each key — so a `schedule` for a key with a pending timer
cancels and replaces exactly that timer, and a firing removes its key from
the timer map. -/
theorem debounce_at_most_one_timer_per_key (events : List DebEvent) :
    ((debRun debInit events).pending.map Prod.snd).Nodup ∧
    (∀ id k, (id, k) ∈ (debRun debInit events).pending ↔
      (debRun debInit events).timers k = some id) := by
  have h := debInv_run events debInit debInv_init
  exact ⟨h.2.1, h.2.2.1⟩

/-! ## Reconciliation core (`WRITES` line 791, `addDiffFile` lines 836-848,
`debouncedChange` lines 891-905, `debouncedWriteFile` lines 907-916) -/

/-- An interface at runtime: the guid of its replicated document (`ydoc.guid`)
and its file declaration strings. -/
structure Intf where
  guid : String
  files : List String
deriving Repr, DecidableEq

/-- The `WRITES` suppression-table key, the template string
`` `${ydoc.guid}-${path}` `` (lines 895-896, 913). -/
def writeKey (guid p : String) : String := guid ++ "-" ++ p

/-- `WRITES[key] = true` (line 913): JS object-key insertion, idempotent. -/
def insertWrite (writes : List String) (k : String) : List String :=
  if k ∈ writes then writes else k :: writes

/-- The mutable state the reconciliation core acts on: the disk, each
document's `files` map and `base-files` map (both indexed by the document
guid), and the global `WRITES` suppression table (the set of keys present). -/
structure SyncState where
  disk : String → Option String
  docs : String → String → Option String
  baseFiles : String → String → Option String
  writes : List String

/-- Two-level map update for the guid-indexed document maps. -/
def setFun2 (f : String → String → Option String) (g k : String) (v : String) :
    String → String → Option String :=
  fun g2 k2 => if g2 = g ∧ k2 = k then some v else f g2 k2

/-- `addDiffFile` (lines 836-848): in diff mode, query `git show diff:file`
(modelled by the external `gitShow`) and store the result in the interface's
`base-files` map; a failing query is caught and only logged. -/
def addDiffFile (gitShow : String → String → Option String) (diff : Option String)
    (i : Intf) (file : String) (s : SyncState) : SyncState :=
  match diff with
  | none => s
  | some branch =>
    match gitShow branch file with
    | some content => { s with baseFiles := setFun2 s.baseFiles i.guid file content }
    | none => s

/-- The body of `debouncedChange` for one interface (lines 893-904): consult
and consume the suppression record first; otherwise propagate the disk
content into the document's `files` map when it differs, then refresh the
diff base entry. The second component records the `files.set` calls performed,
as (guid, path) pairs. -/
def changeStepIntf (gitShow : String → String → Option String) (diff : Option String)
    (p fileContent : String) (s : SyncState) (i : Intf) :
    SyncState × List (String × String) :=
  if writeKey i.guid p ∈ s.writes then
    ({ s with writes := s.writes.erase (writeKey i.guid p) }, [])
  else if s.docs i.guid p ≠ some fileContent then
    (addDiffFile gitShow diff i p
      { s with docs := setFun2 s.docs i.guid p fileContent }, [(i.guid, p)])
  else
    (addDiffFile gitShow diff i p s, [])

/-- The `forEach` of `debouncedChange` (lines 893-904): run `changeStepIntf`
over a list of interfaces left to right, threading the state and accumulating
the performed document writes. -/
def changeFold (gitShow : String → String → Option String) (diff : Option String)
    (p fileContent : String) :
    List Intf → SyncState × List (String × String) → SyncState × List (String × String)
  | [], acc => acc
  | i :: L, acc =>
    let r := changeStepIntf gitShow diff p fileContent acc.1 i
    changeFold gitShow diff p fileContent L (r.1, acc.2 ++ r.2)

/-- The fired `debouncedChange` handler (lines 891-905): read the disk content
once (an absent file makes `readFileSync` throw, killing the process:
`none`), then run `changeStepIntf` over the interfaces holding read
permission for the path, accumulating the performed document writes. -/
def changeFired (gitShow : String → String → Option String) (diff : Option String)
    (s : SyncState) (p : String) (intfs : List Intf) :
    Option (SyncState × List (String × String)) :=
  match s.disk p with
  | none => none
  | some fileContent =>
    some (changeFold gitShow diff p fileContent
      (intfs.filter (fun i => hasPermission 'r' i.files p)) (s, []))

/-- The fired `debouncedWriteFile` handler (lines 907-916): return when the
interface lacks write permission; otherwise compare the document value with
the disk content and, when they differ, record the suppression key and write
the document value to disk, then refresh the diff base entry. A missing disk
file or an `undefined` document value makes the handler throw (`none`). -/
def writeFileFired (gitShow : String → String → Option String) (diff : Option String)
    (s : SyncState) (key : String) (i : Intf) : Option SyncState :=
  if hasPermission 'w' i.files key = true then
    match s.docs i.guid key, s.disk key with
    | some content, some fileContent =>
      if content = fileContent then some s
      else some (addDiffFile gitShow diff i key
        { s with writes := insertWrite s.writes (writeKey i.guid key)
               , disk := setFun s.disk key (some content) })
    | _, _ => none
  else some s

/-- A sequence of remote document add/update notifications for one interface,
each processed by `writeFileFired`. -/
def runRemoteEvents (gitShow : String → String → Option String) (diff : Option String)
    (i : Intf) : SyncState → List String → Option SyncState
  | s, [] => some s
  | s, key :: keys =>
    match writeFileFired gitShow diff s key i with
    | none => none
    | some s1 => runRemoteEvents gitShow diff i s1 keys

theorem addDiffFile_disk (gitShow : String → String → Option String)
    (diff : Option String) (i : Intf) (file : String) (s : SyncState) :
    (addDiffFile gitShow diff i file s).disk = s.disk ∧
    (addDiffFile gitShow diff i file s).docs = s.docs ∧
    (addDiffFile gitShow diff i file s).writes = s.writes := by
  rw [addDiffFile.eq_def]
  cases diff with
  | none => exact ⟨rfl, rfl, rfl⟩
  | some branch =>
    dsimp only
    cases gitShow branch file with
    | none => exact ⟨rfl, rfl, rfl⟩
    | some content => exact ⟨rfl, rfl, rfl⟩

theorem writeFileFired_disk_frame (gitShow : String → String → Option String)
    (diff : Option String) (s s1 : SyncState) (key : String) (i : Intf)
    (hw : writeFileFired gitShow diff s key i = some s1) :
    ∀ k, k ≠ key → s1.disk k = s.disk k := by
  intro k hk
  rw [writeFileFired] at hw
  split at hw
  · cases hdocs : s.docs i.guid key with
    | none =>
      rw [hdocs] at hw
      cases hdisk : s.disk key with
      | none => rw [hdisk] at hw; cases hw
      | some fileContent => rw [hdisk] at hw; cases hw
    | some content =>
      rw [hdocs] at hw
      cases hdisk : s.disk key with
      | none => rw [hdisk] at hw; cases hw
      | some fileContent =>
        rw [hdisk] at hw
        have hw2 : (if content = fileContent then some s
            else some (addDiffFile gitShow diff i key
              { s with writes := insertWrite s.writes (writeKey i.guid key)
                     , disk := setFun s.disk key (some content) })) = some s1 := hw
        by_cases hcf : content = fileContent
        · rw [if_pos hcf] at hw2
          cases hw2
          rfl
        · rw [if_neg hcf] at hw2
          cases hw2
          rw [(addDiffFile_disk gitShow diff i key _).1]
          simp [setFun, hk]
  · cases hw
    rfl

/-- C4: for an interface whose declarations grant no write permission on any
path matching the glob `g`, processing any sequence of remote document change
notifications never writes the disk at a path matching `g`: the
`hasPermission('w', ...)` guard of `debouncedWriteFile` drops every such
path. -/
theorem readonly_interface_never_writes_disk
    (gitShow : String → String → Option String) (diff : Option String)
    (i : Intf) (g : String)
    (hro : ∀ k, minimatch k g = true → hasPermission 'w' i.files k = false) :
    ∀ (keys : List String) (s s' : SyncState),
      runRemoteEvents gitShow diff i s keys = some s' →
      ∀ k, minimatch k g = true → s'.disk k = s.disk k
  | [], s, s', hrun, k, hk => by
    rw [runRemoteEvents] at hrun
    cases hrun
    rfl
  | key :: keys, s, s', hrun, k, hk => by
    rw [runRemoteEvents] at hrun
    cases hw : writeFileFired gitShow diff s key i with
    | none => rw [hw] at hrun; cases hrun
    | some s1 =>
      rw [hw] at hrun
      have hrest := readonly_interface_never_writes_disk gitShow diff i g hro
        keys s1 s' hrun k hk
      rw [hrest]
      by_cases hmatch : minimatch key g = true
      · have hperm := hro key hmatch
        rw [writeFileFired, hperm] at hw
        simp only [Bool.false_eq_true, if_false] at hw
        cases hw
        rfl
      · have hkne : k ≠ key := by
          intro he
          rw [he] at hk
          exact hmatch hk
        exact writeFileFired_disk_frame gitShow diff s s1 key i hw k hkne

/-- A small concrete state used by the witnesses for the reconciliation
claims. -/
def sampleState : SyncState :=
  { disk := fun k => if k = "a.yml" then some "A" else some "B"
  , docs := fun _ k => if k = "b.txt" then some "NEW" else none
  , baseFiles := fun _ _ => none
  , writes := [] }

/-- Witness for C4: an interface declaring only `*.yml r` grants no write
permission anywhere; remote events for `b.txt` and `a.yml` leave the disk
content of the matching path `a.yml` unchanged. -/
theorem readonly_interface_never_writes_disk_witness :
    (runRemoteEvents (fun _ _ => none) none ⟨"g1", ["*.yml r"]⟩ sampleState
        ["b.txt", "a.yml"]).map (fun s => s.disk "a.yml") =
      some (sampleState.disk "a.yml") := by
  have hrun : runRemoteEvents (fun _ _ => none) none ⟨"g1", ["*.yml r"]⟩ sampleState
      ["b.txt", "a.yml"] = some sampleState := rfl
  have h := readonly_interface_never_writes_disk (fun _ _ => none) none
    ⟨"g1", ["*.yml r"]⟩ "*.yml" (fun k _ => rfl) ["b.txt", "a.yml"]
    sampleState sampleState hrun "a.yml" rfl
  rw [hrun]
  exact congrArg some h

theorem writeKey_eq_iff (g1 g2 p : String) :
    writeKey g1 p = writeKey g2 p ↔ g1 = g2 := by
  constructor
  · intro h
    have h2 : (writeKey g1 p).data = (writeKey g2 p).data := by rw [h]
    rw [writeKey, writeKey] at h2
    simp only [String.data_append] at h2
    have h3 := List.append_cancel_right h2
    exact String.ext (List.append_cancel_right h3)
  · intro h
    rw [h]

theorem changeStepIntf_common (gitShow : String → String → Option String)
    (diff : Option String) (p f : String) (s : SyncState) (j : Intf) :
    (∀ k, k ∈ (changeStepIntf gitShow diff p f s j).1.writes → k ∈ s.writes) ∧
    (s.writes.Nodup → (changeStepIntf gitShow diff p f s j).1.writes.Nodup) ∧
    ((changeStepIntf gitShow diff p f s j).2 = [] ∨
      (changeStepIntf gitShow diff p f s j).2 = [(j.guid, p)]) ∧
    (changeStepIntf gitShow diff p f s j).1.disk = s.disk := by
  rw [changeStepIntf]
  by_cases hcan : writeKey j.guid p ∈ s.writes
  · rw [if_pos hcan]
    exact ⟨fun k hk => List.mem_of_mem_erase hk, fun h => h.erase _, Or.inl rfl, rfl⟩
  · rw [if_neg hcan]
    by_cases hdv : s.docs j.guid p ≠ some f
    · rw [if_pos hdv]
      refine ⟨?_, ?_, Or.inr rfl, ?_⟩
      · intro k hk
        rw [(addDiffFile_disk gitShow diff j p _).2.2] at hk
        exact hk
      · intro h
        rw [(addDiffFile_disk gitShow diff j p _).2.2]
        exact h
      · rw [(addDiffFile_disk gitShow diff j p _).1]
    · rw [if_neg hdv]
      refine ⟨?_, ?_, Or.inl rfl, ?_⟩
      · intro k hk
        rw [(addDiffFile_disk gitShow diff j p _).2.2] at hk
        exact hk
      · intro h
        rw [(addDiffFile_disk gitShow diff j p _).2.2]
        exact h
      · rw [(addDiffFile_disk gitShow diff j p _).1]

theorem changeStepIntf_self (gitShow : String → String → Option String)
    (diff : Option String) (p f : String) (s : SyncState) (i : Intf) :
    ((changeStepIntf gitShow diff p f s i).1.docs i.guid p =
      if writeKey i.guid p ∉ s.writes ∧ s.docs i.guid p ≠ some f then some f
      else s.docs i.guid p) ∧
    ((changeStepIntf gitShow diff p f s i).2 =
      if writeKey i.guid p ∉ s.writes ∧ s.docs i.guid p ≠ some f then [(i.guid, p)]
      else []) ∧
    (∀ q, q ≠ p → (changeStepIntf gitShow diff p f s i).1.docs i.guid q = s.docs i.guid q) ∧
    (s.writes.Nodup → writeKey i.guid p ∈ s.writes →
      writeKey i.guid p ∉ (changeStepIntf gitShow diff p f s i).1.writes) := by
  rw [changeStepIntf]
  by_cases hcan : writeKey i.guid p ∈ s.writes
  · rw [if_pos hcan]
    have hcond : ¬ (writeKey i.guid p ∉ s.writes ∧ s.docs i.guid p ≠ some f) :=
      fun hcontra => hcontra.1 hcan
    rw [if_neg hcond, if_neg hcond]
    exact ⟨rfl, rfl, fun q _ => rfl, fun hnodup _ => hnodup.not_mem_erase⟩
  · rw [if_neg hcan]
    by_cases hdv : s.docs i.guid p ≠ some f
    · rw [if_pos hdv, if_pos ⟨hcan, hdv⟩, if_pos ⟨hcan, hdv⟩]
      refine ⟨?_, rfl, ?_, ?_⟩
      · rw [(addDiffFile_disk gitShow diff i p _).2.1]
        simp [setFun2]
      · intro q hq
        rw [(addDiffFile_disk gitShow diff i p _).2.1]
        simp [setFun2, hq]
      · intro _ hmem
        exact absurd hmem hcan
    · rw [if_neg hdv]
      have hcond : ¬ (writeKey i.guid p ∉ s.writes ∧ s.docs i.guid p ≠ some f) :=
        fun hcontra => hdv hcontra.2
      rw [if_neg hcond, if_neg hcond]
      refine ⟨?_, rfl, ?_, ?_⟩
      · rw [(addDiffFile_disk gitShow diff i p _).2.1]
      · intro q _
        rw [(addDiffFile_disk gitShow diff i p _).2.1]
      · intro _ hmem
        exact absurd hmem hcan

theorem changeStepIntf_frame (gitShow : String → String → Option String)
    (diff : Option String) (p f : String) (s : SyncState) (j : Intf) (g : String)
    (hg : j.guid ≠ g) :
    (∀ q, (changeStepIntf gitShow diff p f s j).1.docs g q = s.docs g q) ∧
    (writeKey g p ∈ (changeStepIntf gitShow diff p f s j).1.writes ↔
      writeKey g p ∈ s.writes) := by
  have hkne : writeKey g p ≠ writeKey j.guid p := by
    intro h
    exact hg ((writeKey_eq_iff g j.guid p).1 h).symm
  rw [changeStepIntf]
  by_cases hcan : writeKey j.guid p ∈ s.writes
  · rw [if_pos hcan]
    exact ⟨fun q => rfl, List.mem_erase_of_ne hkne⟩
  · rw [if_neg hcan]
    by_cases hdv : s.docs j.guid p ≠ some f
    · rw [if_pos hdv]
      constructor
      · intro q
        rw [(addDiffFile_disk gitShow diff j p _).2.1]
        show (if g = j.guid ∧ q = p then some f else s.docs g q) = s.docs g q
        rw [if_neg]
        rintro ⟨h1, -⟩
        exact hg h1.symm
      · rw [(addDiffFile_disk gitShow diff j p _).2.2]
    · rw [if_neg hdv]
      constructor
      · intro q
        rw [(addDiffFile_disk gitShow diff j p _).2.1]
      · rw [(addDiffFile_disk gitShow diff j p _).2.2]

theorem changeFold_append (gitShow : String → String → Option String)
    (diff : Option String) (p f : String) :
    ∀ (L1 L2 : List Intf) (acc : SyncState × List (String × String)),
      changeFold gitShow diff p f (L1 ++ L2) acc =
        changeFold gitShow diff p f L2 (changeFold gitShow diff p f L1 acc)
  | [], _, _ => rfl
  | _ :: L1, L2, _ => changeFold_append gitShow diff p f L1 L2 _

theorem changeFold_common (gitShow : String → String → Option String)
    (diff : Option String) (p f : String) :
    ∀ (L : List Intf) (s : SyncState) (acc : List (String × String)),
      (∀ k, k ∈ (changeFold gitShow diff p f L (s, acc)).1.writes → k ∈ s.writes) ∧
      (s.writes.Nodup → (changeFold gitShow diff p f L (s, acc)).1.writes.Nodup) ∧
      (∀ pr ∈ (changeFold gitShow diff p f L (s, acc)).2, pr ∈ acc ∨ pr.2 = p) ∧
      (changeFold gitShow diff p f L (s, acc)).1.disk = s.disk
  | [], _, acc => ⟨fun _ hk => hk, fun h => h, fun _ hpr => Or.inl hpr, rfl⟩
  | j :: L, s, acc => by
    obtain ⟨hmono, hnodup, hws, hdisk⟩ := changeStepIntf_common gitShow diff p f s j
    have heq : changeFold gitShow diff p f (j :: L) (s, acc) =
        changeFold gitShow diff p f L ((changeStepIntf gitShow diff p f s j).1,
          acc ++ (changeStepIntf gitShow diff p f s j).2) := rfl
    have hrec := changeFold_common gitShow diff p f L
      (changeStepIntf gitShow diff p f s j).1 (acc ++ (changeStepIntf gitShow diff p f s j).2)
    rw [heq]
    refine ⟨?_, ?_, ?_, ?_⟩
    · intro k hk
      exact hmono k (hrec.1 k hk)
    · intro h
      exact hrec.2.1 (hnodup h)
    · intro pr hpr
      rcases hrec.2.2.1 pr hpr with hacc | hp
      · rcases List.mem_append.1 hacc with h1 | h2
        · exact Or.inl h1
        · rcases hws with h0 | h1
          · rw [h0] at h2
            cases h2
          · rw [h1] at h2
            rw [List.mem_singleton] at h2
            rw [h2]
            exact Or.inr rfl
      · exact Or.inr hp
    · rw [hrec.2.2.2, hdisk]

theorem changeFold_frame (gitShow : String → String → Option String)
    (diff : Option String) (p f : String) (g : String) :
    ∀ (L : List Intf) (s : SyncState) (acc : List (String × String)),
      (∀ j ∈ L, j.guid ≠ g) →
      (∀ q, (changeFold gitShow diff p f L (s, acc)).1.docs g q = s.docs g q) ∧
      (writeKey g p ∈ (changeFold gitShow diff p f L (s, acc)).1.writes ↔
        writeKey g p ∈ s.writes) ∧
      (∀ pr : String × String, pr.1 = g →
        (changeFold gitShow diff p f L (s, acc)).2.count pr = acc.count pr)
  | [], _, _, _ => ⟨fun _ => rfl, Iff.rfl, fun _ _ => rfl⟩
  | j :: L, s, acc, hL => by
    have hgj : j.guid ≠ g := hL j (List.mem_cons_self _ _)
    obtain ⟨hdocs, hkey⟩ := changeStepIntf_frame gitShow diff p f s j g hgj
    obtain ⟨-, -, hws, -⟩ := changeStepIntf_common gitShow diff p f s j
    have heq : changeFold gitShow diff p f (j :: L) (s, acc) =
        changeFold gitShow diff p f L ((changeStepIntf gitShow diff p f s j).1,
          acc ++ (changeStepIntf gitShow diff p f s j).2) := rfl
    have hrec := changeFold_frame gitShow diff p f g L
      (changeStepIntf gitShow diff p f s j).1 (acc ++ (changeStepIntf gitShow diff p f s j).2)
      (fun j2 hj2 => hL j2 (List.mem_cons_of_mem _ hj2))
    rw [heq]
    refine ⟨?_, ?_, ?_⟩
    · intro q
      rw [hrec.1 q, hdocs q]
    · rw [hrec.2.1, hkey]
    · intro pr hpr
      rw [hrec.2.2 pr hpr, List.count_append]
      have hzero : (changeStepIntf gitShow diff p f s j).2.count pr = 0 := by
        rcases hws with h0 | h1
        · rw [h0, List.count_nil]
        · rw [h1]
          have hne : pr ≠ (j.guid, p) := by
            intro he
            rw [he] at hpr
            exact hgj hpr
          simp [List.count_cons, hne]
      rw [hzero]
      rfl

theorem changeFired_guid_spec (gitShow : String → String → Option String)
    (diff : Option String) (intfs : List Intf) (i : Intf) (p f : String) (s : SyncState)
    (hmem : i ∈ intfs) (hnd : (intfs.map Intf.guid).Nodup)
    (hdisk : s.disk p = some f)
    (s2 : SyncState) (ws : List (String × String))
    (hc : changeFired gitShow diff s p intfs = some (s2, ws)) :
    (s2.docs i.guid p =
      if hasPermission 'r' i.files p = true ∧ writeKey i.guid p ∉ s.writes ∧
          s.docs i.guid p ≠ some f
      then some f else s.docs i.guid p) ∧
    (ws.count (i.guid, p) =
      if hasPermission 'r' i.files p = true ∧ writeKey i.guid p ∉ s.writes ∧
          s.docs i.guid p ≠ some f
      then 1 else 0) ∧
    (∀ q, q ≠ p → s2.docs i.guid q = s.docs i.guid q) ∧
    (∀ k, k ∈ s2.writes → k ∈ s.writes) ∧
    (s.writes.Nodup → hasPermission 'r' i.files p = true → writeKey i.guid p ∈ s.writes →
      writeKey i.guid p ∉ s2.writes) ∧
    (∀ pr ∈ ws, pr.2 = p) ∧
    s2.disk = s.disk := by
  rw [changeFired.eq_def, hdisk] at hc
  have hc2 : changeFold gitShow diff p f
      (intfs.filter (fun j => hasPermission 'r' j.files p)) (s, []) = (s2, ws) :=
    Option.some.inj hc
  by_cases hperm : hasPermission 'r' i.files p = true
  · -- the interface is in the filtered list; split it out
    have hiF : i ∈ intfs.filter (fun j => hasPermission 'r' j.files p) :=
      List.mem_filter.2 ⟨hmem, hperm⟩
    obtain ⟨L1, L2, hF⟩ := List.append_of_mem hiF
    have hndF : ((intfs.filter (fun j => hasPermission 'r' j.files p)).map Intf.guid).Nodup :=
      ((List.filter_sublist intfs).map Intf.guid).nodup hnd
    rw [hF, List.map_append, List.map_cons, List.nodup_append] at hndF
    obtain ⟨hnd1, hnd2, hdisj⟩ := hndF
    have hgL1 : ∀ j ∈ L1, j.guid ≠ i.guid := by
      intro j hj he
      exact hdisj (List.mem_map_of_mem _ hj) (by rw [he]; exact List.mem_cons_self _ _)
    have hgL2 : ∀ j ∈ L2, j.guid ≠ i.guid := by
      intro j hj he
      rw [List.nodup_cons] at hnd2
      exact hnd2.1 (by rw [← he]; exact List.mem_map_of_mem _ hj)
    rw [hF, changeFold_append] at hc2
    have hfr1 := changeFold_frame gitShow diff p f i.guid L1 s [] hgL1
    have hcm1 := changeFold_common gitShow diff p f L1 s []
    have hc3 : changeFold gitShow diff p f L2
        ((changeStepIntf gitShow diff p f
            (changeFold gitShow diff p f L1 (s, [])).1 i).1,
          (changeFold gitShow diff p f L1 (s, [])).2 ++
            (changeStepIntf gitShow diff p f
              (changeFold gitShow diff p f L1 (s, [])).1 i).2) = (s2, ws) := hc2
    have hstep := changeStepIntf_self gitShow diff p f
      (changeFold gitShow diff p f L1 (s, [])).1 i
    have hstepc := changeStepIntf_common gitShow diff p f
      (changeFold gitShow diff p f L1 (s, [])).1 i
    have hfr2 := changeFold_frame gitShow diff p f i.guid L2
      (changeStepIntf gitShow diff p f
        (changeFold gitShow diff p f L1 (s, [])).1 i).1
      ((changeFold gitShow diff p f L1 (s, [])).2 ++
        (changeStepIntf gitShow diff p f
          (changeFold gitShow diff p f L1 (s, [])).1 i).2) hgL2
    have hcm2 := changeFold_common gitShow diff p f L2
      (changeStepIntf gitShow diff p f
        (changeFold gitShow diff p f L1 (s, [])).1 i).1
      ((changeFold gitShow diff p f L1 (s, [])).2 ++
        (changeStepIntf gitShow diff p f
          (changeFold gitShow diff p f L1 (s, [])).1 i).2)
    rw [hc3] at hfr2 hcm2
    refine ⟨?_, ?_, ?_, ?_, ?_, ?_, ?_⟩
    · -- document value at p
      rw [hfr2.1 p, hstep.1]
      simp [hfr1.1 p, hfr1.2.1, hperm]
    · -- count of performed writes for this document at p
      rw [hfr2.2.2 (i.guid, p) rfl, List.count_append, hfr1.2.2 (i.guid, p) rfl,
        List.count_nil, hstep.2.1]
      by_cases hcond : writeKey i.guid p ∉
          (changeFold gitShow diff p f L1 (s, [])).1.writes ∧
          (changeFold gitShow diff p f L1 (s, [])).1.docs i.guid p ≠ some f
      · rw [if_pos hcond, if_pos]
        · simp
        · rw [hfr1.2.1, hfr1.1 p] at hcond
          exact ⟨hperm, hcond.1, hcond.2⟩
      · rw [if_neg hcond, if_neg]
        · simp
        · rintro ⟨-, hc1, hc2'⟩
          rw [← hfr1.2.1] at hc1
          rw [← hfr1.1 p] at hc2'
          exact hcond ⟨hc1, hc2'⟩
    · -- other paths of this document untouched
      intro q hq
      rw [hfr2.1 q, hstep.2.2.1 q hq, hfr1.1 q]
    · -- the suppression table never grows
      intro k hk
      exact hcm1.1 k (hstepc.1 k (hcm2.1 k hk))
    · -- a present suppression record is consumed
      intro hnodup _ hK
      rw [hfr2.2.1]
      exact hstep.2.2.2 (hcm1.2.1 hnodup) ((hfr1.2.1).2 hK)
    · -- every performed write is for this path
      intro pr hpr
      rcases hcm2.2.2.1 pr hpr with hacc | hp2
      · rcases List.mem_append.1 hacc with h1 | h2
        · rcases hcm1.2.2.1 pr h1 with h0 | hp2
          · cases h0
          · exact hp2
        · rcases hstepc.2.2.1 with h0 | h1'
          · rw [h0] at h2
            cases h2
          · rw [h1', List.mem_singleton] at h2
            rw [h2]
      · exact hp2
    · -- the local handler never writes the disk
      rw [hcm2.2.2.2, hstepc.2.2.2, hcm1.2.2.2]
  · -- no read permission: the interface is filtered out entirely
    have hnoF : ∀ j ∈ intfs.filter (fun j => hasPermission 'r' j.files p),
        j.guid ≠ i.guid := by
      intro j hj he
      have hji : j = i :=
        List.inj_on_of_nodup_map hnd (List.mem_filter.1 hj).1 hmem he
      rw [hji] at hj
      exact hperm (List.mem_filter.1 hj).2
    have hfr := changeFold_frame gitShow diff p f i.guid
      (intfs.filter (fun j => hasPermission 'r' j.files p)) s [] hnoF
    have hcm := changeFold_common gitShow diff p f
      (intfs.filter (fun j => hasPermission 'r' j.files p)) s []
    rw [hc2] at hfr hcm
    have hcfalse : ¬ (hasPermission 'r' i.files p = true ∧
        writeKey i.guid p ∉ s.writes ∧ s.docs i.guid p ≠ some f) :=
      fun hcontra => hperm hcontra.1
    refine ⟨?_, ?_, ?_, hcm.1, ?_, ?_, hcm.2.2.2⟩
    · rw [if_neg hcfalse]
      exact hfr.1 p
    · rw [if_neg hcfalse]
      exact hfr.2.2 (i.guid, p) rfl
    · intro q _
      exact hfr.1 q
    · intro _ hp _
      exact absurd hp hperm
    · intro pr hpr
      rcases hcm.2.2.1 pr hpr with h0 | hp2
      · cases h0
      · exact hp2

/-- C1: a remote document update for path `p` that is written to disk (the
interface has write permission and the document value differs from the disk
content), followed by the resulting local filesystem change event for `p`,
produces zero additional writes into the updated document: the local handler
leaves that document's `files` map untouched at every key. After the disk
write, the disk content equals the document value, and the handler either
consumes the suppression record or finds the contents equal; either way it
returns without setting the document key. The interfaces carry pairwise
distinct document guids. -/
theorem remote_update_then_local_event_no_doc_write
    (gitShow : String → String → Option String) (diff : Option String)
    (intfs : List Intf) (i : Intf)
    (hmem : i ∈ intfs) (hnd : (intfs.map Intf.guid).Nodup)
    (s s1 : SyncState) (p content fileContent : String)
    (hperm : hasPermission 'w' i.files p = true)
    (hdoc : s.docs i.guid p = some content)
    (hdiskp : s.disk p = some fileContent)
    (hne : content ≠ fileContent)
    (hw : writeFileFired gitShow diff s p i = some s1)
    (s2 : SyncState) (ws : List (String × String))
    (hc : changeFired gitShow diff s1 p intfs = some (s2, ws)) :
    (∀ pr ∈ ws, pr.1 ≠ i.guid) ∧ (∀ q, s2.docs i.guid q = s1.docs i.guid q) := by
  rw [writeFileFired, if_pos hperm, hdoc, hdiskp] at hw
  have hw2 : (if content = fileContent then some s
      else some (addDiffFile gitShow diff i p
        { s with writes := insertWrite s.writes (writeKey i.guid p)
               , disk := setFun s.disk p (some content) })) = some s1 := hw
  rw [if_neg hne] at hw2
  have hs1 := Option.some.inj hw2
  have hs1docs : s1.docs = s.docs := by
    rw [← hs1, (addDiffFile_disk gitShow diff i p _).2.1]
  have hs1diskp : s1.disk p = some content := by
    rw [← hs1, (addDiffFile_disk gitShow diff i p _).1]
    simp [setFun]
  have hspec := changeFired_guid_spec gitShow diff intfs i p content s1
    hmem hnd hs1diskp s2 ws hc
  have hs1docp : s1.docs i.guid p = some content := by rw [hs1docs, hdoc]
  have hcfalse : ¬ (hasPermission 'r' i.files p = true ∧
      writeKey i.guid p ∉ s1.writes ∧ s1.docs i.guid p ≠ some content) :=
    fun hcontra => hcontra.2.2 hs1docp
  constructor
  · intro pr hpr he
    have hp2 := hspec.2.2.2.2.2.1 pr hpr
    have : pr = (i.guid, p) := Prod.ext he hp2
    rw [this] at hpr
    have hcount := hspec.2.1
    rw [if_neg hcfalse] at hcount
    exact (List.count_eq_zero.1 hcount) hpr
  · intro q
    by_cases hq : q = p
    · rw [hq]
      have h1 := hspec.1
      rw [if_neg hcfalse] at h1
      exact h1
    · exact hspec.2.2.1 q hq

/-- C3: processing a local change event for `p` when the disk content equals
the document's current value for `p` performs no write into that document
(first conjunct); and two consecutive local change events for `p` (the disk
is not modified by the handler, so both see the same content) produce at
most one write into that document (second conjunct). -/
theorem local_event_idempotent
    (gitShow : String → String → Option String) (diff : Option String)
    (intfs : List Intf) (i : Intf)
    (hmem : i ∈ intfs) (hnd : (intfs.map Intf.guid).Nodup)
    (s : SyncState) (p f : String)
    (hdisk : s.disk p = some f)
    (s1 : SyncState) (ws1 : List (String × String))
    (hc1 : changeFired gitShow diff s p intfs = some (s1, ws1))
    (s2 : SyncState) (ws2 : List (String × String))
    (hc2 : changeFired gitShow diff s1 p intfs = some (s2, ws2)) :
    (s.docs i.guid p = some f → (i.guid, p) ∉ ws1) ∧
    (ws1 ++ ws2).count (i.guid, p) ≤ 1 := by
  have hspec1 := changeFired_guid_spec gitShow diff intfs i p f s
    hmem hnd hdisk s1 ws1 hc1
  have hdisk1 : s1.disk p = some f := by
    rw [hspec1.2.2.2.2.2.2, hdisk]
  have hspec2 := changeFired_guid_spec gitShow diff intfs i p f s1
    hmem hnd hdisk1 s2 ws2 hc2
  constructor
  · intro hdv
    have hcount := hspec1.2.1
    rw [if_neg (fun hcontra => hcontra.2.2 hdv)] at hcount
    exact List.count_eq_zero.1 hcount
  · rw [List.count_append]
    by_cases hcond1 : hasPermission 'r' i.files p = true ∧
        writeKey i.guid p ∉ s.writes ∧ s.docs i.guid p ≠ some f
    · have hc1count := hspec1.2.1
      rw [if_pos hcond1] at hc1count
      have hdocs1 : s1.docs i.guid p = some f := by
        have h1 := hspec1.1
        rw [if_pos hcond1] at h1
        exact h1
      have hc2count := hspec2.2.1
      rw [if_neg (fun hcontra => hcontra.2.2 hdocs1)] at hc2count
      omega
    · have hc1count := hspec1.2.1
      rw [if_neg hcond1] at hc1count
      have hc2count := hspec2.2.1
      by_cases hcond2 : hasPermission 'r' i.files p = true ∧
          writeKey i.guid p ∉ s1.writes ∧ s1.docs i.guid p ≠ some f
      · rw [if_pos hcond2] at hc2count
        omega
      · rw [if_neg hcond2] at hc2count
        omega

/-- C2 amended: once a suppression record for (guid, path) is present, the
next local change event for that path that is processed for that interface
(the interface holding read permission on the path) consumes the record and
skips local-to-remote propagation unconditionally — regardless of the current
disk content `f`, which is arbitrary here. -/
theorem suppression_consumed_unconditionally
    (gitShow : String → String → Option String) (diff : Option String)
    (intfs : List Intf) (i : Intf)
    (hmem : i ∈ intfs) (hnd : (intfs.map Intf.guid).Nodup)
    (p f : String) (s : SyncState)
    (hperm : hasPermission 'r' i.files p = true)
    (hnodup : s.writes.Nodup)
    (hcan : writeKey i.guid p ∈ s.writes)
    (hdisk : s.disk p = some f)
    (s2 : SyncState) (ws : List (String × String))
    (hc : changeFired gitShow diff s p intfs = some (s2, ws)) :
    writeKey i.guid p ∉ s2.writes ∧ (∀ pr ∈ ws, pr.1 ≠ i.guid) ∧
    (∀ q, s2.docs i.guid q = s.docs i.guid q) := by
  have hspec := changeFired_guid_spec gitShow diff intfs i p f s
    hmem hnd hdisk s2 ws hc
  have hcfalse : ¬ (hasPermission 'r' i.files p = true ∧
      writeKey i.guid p ∉ s.writes ∧ s.docs i.guid p ≠ some f) :=
    fun hcontra => hcontra.2.1 hcan
  refine ⟨hspec.2.2.2.2.1 hnodup hperm hcan, ?_, ?_⟩
  · intro pr hpr he
    have hp2 := hspec.2.2.2.2.2.1 pr hpr
    have hpr2 : pr = (i.guid, p) := Prod.ext he hp2
    rw [hpr2] at hpr
    have hcount := hspec.2.1
    rw [if_neg hcfalse] at hcount
    exact (List.count_eq_zero.1 hcount) hpr
  · intro q
    by_cases hq : q = p
    · rw [hq]
      have h1 := hspec.1
      rw [if_neg hcfalse] at h1
      exact h1
    · exact hspec.2.2.1 q hq

/-- A state in which a suppression record for (guid `g`, path `a.txt`) is
present while the disk content `Z` differs both from the document value `X`
and from the content recorded when the suppression record was written (the
record is a bare boolean in `WRITES`; the content written to disk at record
time was `X`, and the disk has since changed to `Z`). -/
def mismatchState : SyncState :=
  { disk := fun k => if k = "a.txt" then some "Z" else none
  , docs := fun g k => if g = "g" ∧ k = "a.txt" then some "X" else none
  , baseFiles := fun _ _ => none
  , writes := [writeKey "g" "a.txt"] }

/-- A state with a suppression record for a write-only interface `g2`. -/
def persistState : SyncState :=
  { disk := fun k => if k = "a.txt" then some "Z" else none
  , docs := fun _ _ => none
  , baseFiles := fun _ _ => none
  , writes := [writeKey "g2" "a.txt"] }

/-- C2 counterexample. First part: the claim requires the local handler to
consume the record and skip propagation only when the current disk
fingerprint matches the recorded fingerprint; here the disk holds `Z` while
the recorded write was `X`, yet the handler consumes the record (the `WRITES`
table becomes empty) and skips propagation (no document write is performed
and the document still holds `X`) — the record is a boolean, not a
fingerprint, and is consumed unconditionally. Second part: the claim says no
record persists longer than one local-event cycle; for a write-only interface
the local change event for the path skips the interface entirely (no read
permission), so its record survives the cycle untouched. -/
theorem suppression_ignores_fingerprint_counterexample :
    ((changeFired (fun _ _ => none) none mismatchState "a.txt"
        [⟨"g", ["a.txt rw"]⟩]).map
        (fun r => (r.2, r.1.docs "g" "a.txt", r.1.writes)) =
      some (([] : List (String × String)), some "X", ([] : List String)) ∧
    mismatchState.disk "a.txt" = some "Z" ∧ ("Z" : String) ≠ "X") ∧
    ((changeFired (fun _ _ => none) none persistState "a.txt"
        [⟨"g2", ["a.txt w"]⟩]).map (fun r => r.1.writes) =
      some [writeKey "g2" "a.txt"]) :=
  ⟨⟨rfl, rfl, by decide⟩, rfl⟩

/-- The state reached from `mismatchState` by the local change handler. -/
def mismatchStateAfter : SyncState :=
  { mismatchState with
    writes := mismatchState.writes.erase (writeKey "g" "a.txt") }

/-- Witness for the amended C2 at the concrete mismatch state: the record is
consumed and the document entry for `a.txt` is left at `X` even though the
disk holds `Z`. -/
theorem suppression_consumed_unconditionally_witness :
    writeKey "g" "a.txt" ∉ mismatchStateAfter.writes ∧
    mismatchStateAfter.docs "g" "a.txt" = mismatchState.docs "g" "a.txt" := by
  have h := suppression_consumed_unconditionally (fun _ _ => none) none
    [⟨"g", ["a.txt rw"]⟩] ⟨"g", ["a.txt rw"]⟩ (by simp) (by simp)
    "a.txt" "Z" mismatchState rfl (by simp [mismatchState]) (by simp [mismatchState])
    rfl mismatchStateAfter [] rfl
  exact ⟨h.1, h.2.2 "a.txt"⟩

/-- Initial state of the C1 witness scenario: the document of interface `g`
holds `NEW` for `a.txt` while the disk still holds `OLD`. -/
def c1State : SyncState :=
  { disk := fun k => if k = "a.txt" then some "OLD" else none
  , docs := fun g k => if g = "g" ∧ k = "a.txt" then some "NEW" else none
  , baseFiles := fun _ _ => none
  , writes := [] }

/-- The state after `debouncedWriteFile` applies the remote update to disk. -/
def c1StateAfterWrite : SyncState :=
  { c1State with
    writes := insertWrite c1State.writes (writeKey "g" "a.txt")
  , disk := setFun c1State.disk "a.txt" (some "NEW") }

/-- The state after the resulting local change event is handled. -/
def c1StateFinal : SyncState :=
  { c1StateAfterWrite with
    writes := c1StateAfterWrite.writes.erase (writeKey "g" "a.txt") }

/-- Witness for C1 at the concrete scenario: after the remote update to
`a.txt` is written to disk and the local change event fires, the writing
interface's document is unchanged at both `a.txt` and an unrelated key. -/
theorem remote_update_then_local_event_no_doc_write_witness :
    c1StateFinal.docs "g" "a.txt" = c1StateAfterWrite.docs "g" "a.txt" ∧
    c1StateFinal.docs "g" "other.txt" = c1StateAfterWrite.docs "g" "other.txt" := by
  have h := remote_update_then_local_event_no_doc_write (fun _ _ => none) none
    [⟨"g", ["a.txt rw"]⟩] ⟨"g", ["a.txt rw"]⟩ (by simp) (by simp)
    c1State c1StateAfterWrite "a.txt" "NEW" "OLD" rfl rfl rfl (by decide)
    rfl c1StateFinal [] rfl
  exact ⟨h.2 "a.txt", h.2 "other.txt"⟩

/-- Initial state of the C3 witness scenario: disk and document already agree
on `a.txt`. -/
def c3State : SyncState :=
  { disk := fun k => if k = "a.txt" then some "S" else none
  , docs := fun g k => if g = "g" ∧ k = "a.txt" then some "S" else none
  , baseFiles := fun _ _ => none
  , writes := [] }

/-- Witness for C3 at the concrete scenario: with disk content equal to the
document value, the first local change event performs no document write, and
two consecutive events perform at most one in total. -/
theorem local_event_idempotent_witness :
    (("g", "a.txt") ∉ ([] : List (String × String))) ∧
    (([] ++ [] : List (String × String)).count ("g", "a.txt") ≤ 1) := by
  have h := local_event_idempotent (fun _ _ => none) none
    [⟨"g", ["a.txt rw"]⟩] ⟨"g", ["a.txt rw"]⟩ (by simp) (by simp)
    c3State "a.txt" "S" rfl c3State [] rfl c3State [] rfl
  exact ⟨h.1 rfl, h.2⟩
